import Mathlib

/-!
Verification development for the nyx-modules-qemux86 keys driver
(`src/keys/keys.c`): a shallow embedding of the keycode classifier
(`lookup_key`), the raw event reader (`read_input_event`) and the event
iterator (`keys_get_event` / `keys_release_event`), together with theorems
about the classification table, the press/auto-repeat flag derivation, the
iteration order, the error behaviour and the event-ownership discipline.
-/

namespace NyxKeys

/-! ### Linux input-event codes

Numeric values from `linux/input-event-codes.h`, which `keys.c` includes via
`linux/input.h`.  Only the codes named in `lookup_key` and the `EV_KEY` event
type are needed. -/

def KEY_Q : Nat := 16
def KEY_W : Nat := 17
def KEY_E : Nat := 18
def KEY_LEFTSHIFT : Nat := 42
def KEY_HOME : Nat := 102
def KEY_END : Nat := 107
def KEY_MUTE : Nat := 113
def KEY_VOLUMEDOWN : Nat := 114
def KEY_VOLUMEUP : Nat := 115
def KEY_PAUSE : Nat := 119
def KEY_STOP : Nat := 128
def KEY_BACK : Nat := 158
def KEY_REWIND : Nat := 168
def KEY_HOMEPAGE : Nat := 172
def KEY_PLAY : Nat := 207
def KEY_FASTFORWARD : Nat := 208
def KEY_SEARCH : Nat := 217
def KEY_BRIGHTNESSDOWN : Nat := 224
def KEY_BRIGHTNESSUP : Nat := 225
def KEY_NEXT : Nat := 0x197
def KEY_PREVIOUS : Nat := 0x19c

/-- Event type tag for key events (`EV_KEY` in `linux/input-event-codes.h`). -/
def EV_KEY : Nat := 1

/-! ### nyx key taxonomy

`nyx_key_type_t` and the `NYX_KEYS_CUSTOM_KEY_*` identifiers come from the
external nyx-lib headers (not part of this repository).  The key-type
enumeration starts with UNDEFINED = 0 (the value `calloc` produces), then
STANDARD and CUSTOM.  The custom-key identifiers are members of nyx-lib's
`nyx_keys_custom_key_t` enumeration; the claims here only depend on which
named identifier each raw code maps to, never on the numerals, so the
identifiers are modelled as distinct natural-number constants. -/

inductive NyxKeyType where
  | undefined
  | standard
  | custom
deriving DecidableEq

def NYX_KEYS_CUSTOM_KEY_VOL_UP : Nat := 1
def NYX_KEYS_CUSTOM_KEY_VOL_DOWN : Nat := 2
def NYX_KEYS_CUSTOM_KEY_POWER_ON : Nat := 3
def NYX_KEYS_CUSTOM_KEY_HOME : Nat := 4
def NYX_KEYS_CUSTOM_KEY_BACK : Nat := 5
def NYX_KEYS_CUSTOM_KEY_MEDIA_PLAY : Nat := 11
def NYX_KEYS_CUSTOM_KEY_MEDIA_PAUSE : Nat := 12
def NYX_KEYS_CUSTOM_KEY_MEDIA_STOP : Nat := 13
def NYX_KEYS_CUSTOM_KEY_MEDIA_NEXT : Nat := 14
def NYX_KEYS_CUSTOM_KEY_MEDIA_PREVIOUS : Nat := 15
def NYX_KEYS_CUSTOM_KEY_MEDIA_REWIND : Nat := 16
def NYX_KEYS_CUSTOM_KEY_MEDIA_FASTFORWARD : Nat := 17
def NYX_KEYS_CUSTOM_KEY_BRIGHTNESS_UP : Nat := 18
def NYX_KEYS_CUSTOM_KEY_BRIGHTNESS_DOWN : Nat := 19
def NYX_KEYS_CUSTOM_KEY_SEARCH : Nat := 20
def NYX_KEYS_CUSTOM_KEY_HOT : Nat := 21
def NYX_KEYS_CUSTOM_KEY_VOL_MUTE : Nat := 22

/-! ### Keycode classifier (`lookup_key`, keys.c lines 196-313)

The C function takes the raw key code and an in/out pointer to the key
type; the switch assigns `key` and `*key_type_out_ptr` together for every
custom-table code and leaves both untouched otherwise (`key` starts at 0).
After the switch, if the key type (as left behind the pointer) is not
CUSTOM, the key becomes the raw code — with a redundant special case that
maps `KEY_LEFTSHIFT` to itself.  The initial value behind the pointer is a
parameter here (`key_type_in`); the only caller, `keys_get_event`, always
sets it to STANDARD just before the call (keys.c line 398).  The unused
`keys_device_t *` and `int32_t keyValue` parameters are dropped. -/

def lookup_key (keyCode : Nat) (key_type_in : NyxKeyType) : Nat × NyxKeyType :=
  let r : Nat × NyxKeyType :=
    if keyCode = KEY_Q then (NYX_KEYS_CUSTOM_KEY_HOME, NyxKeyType.custom)
    else if keyCode = KEY_HOMEPAGE ∨ keyCode = KEY_W then
      (NYX_KEYS_CUSTOM_KEY_HOT, NyxKeyType.custom)
    else if keyCode = KEY_BACK ∨ keyCode = KEY_E then
      (NYX_KEYS_CUSTOM_KEY_BACK, NyxKeyType.custom)
    else if keyCode = KEY_HOME then (NYX_KEYS_CUSTOM_KEY_HOME, NyxKeyType.custom)
    else if keyCode = KEY_VOLUMEUP then (NYX_KEYS_CUSTOM_KEY_VOL_UP, NyxKeyType.custom)
    else if keyCode = KEY_VOLUMEDOWN then (NYX_KEYS_CUSTOM_KEY_VOL_DOWN, NyxKeyType.custom)
    else if keyCode = KEY_END then (NYX_KEYS_CUSTOM_KEY_POWER_ON, NyxKeyType.custom)
    else if keyCode = KEY_PLAY then (NYX_KEYS_CUSTOM_KEY_MEDIA_PLAY, NyxKeyType.custom)
    else if keyCode = KEY_PAUSE then (NYX_KEYS_CUSTOM_KEY_MEDIA_PAUSE, NyxKeyType.custom)
    else if keyCode = KEY_STOP then (NYX_KEYS_CUSTOM_KEY_MEDIA_STOP, NyxKeyType.custom)
    else if keyCode = KEY_NEXT then (NYX_KEYS_CUSTOM_KEY_MEDIA_NEXT, NyxKeyType.custom)
    else if keyCode = KEY_PREVIOUS then
      (NYX_KEYS_CUSTOM_KEY_MEDIA_PREVIOUS, NyxKeyType.custom)
    else if keyCode = KEY_SEARCH then (NYX_KEYS_CUSTOM_KEY_SEARCH, NyxKeyType.custom)
    else if keyCode = KEY_BRIGHTNESSDOWN then
      (NYX_KEYS_CUSTOM_KEY_BRIGHTNESS_DOWN, NyxKeyType.custom)
    else if keyCode = KEY_BRIGHTNESSUP then
      (NYX_KEYS_CUSTOM_KEY_BRIGHTNESS_UP, NyxKeyType.custom)
    else if keyCode = KEY_MUTE then (NYX_KEYS_CUSTOM_KEY_VOL_MUTE, NyxKeyType.custom)
    else if keyCode = KEY_REWIND then (NYX_KEYS_CUSTOM_KEY_MEDIA_REWIND, NyxKeyType.custom)
    else if keyCode = KEY_FASTFORWARD then
      (NYX_KEYS_CUSTOM_KEY_MEDIA_FASTFORWARD, NyxKeyType.custom)
    else (0, key_type_in)
  if r.2 ≠ NyxKeyType.custom then
    (if keyCode = KEY_LEFTSHIFT then KEY_LEFTSHIFT else keyCode, r.2)
  else r

/-- The raw codes handled by the custom-key switch cases of `lookup_key`,
in source order. -/
def customKeyCodes : List Nat :=
  [KEY_Q, KEY_HOMEPAGE, KEY_W, KEY_BACK, KEY_E, KEY_HOME, KEY_VOLUMEUP,
   KEY_VOLUMEDOWN, KEY_END, KEY_PLAY, KEY_PAUSE, KEY_STOP, KEY_NEXT,
   KEY_PREVIOUS, KEY_SEARCH, KEY_BRIGHTNESSDOWN, KEY_BRIGHTNESSUP,
   KEY_MUTE, KEY_REWIND, KEY_FASTFORWARD]

/-- C1: every raw code in the fixed custom-key table (including the aliased
codes KEY_Q, KEY_W, KEY_E) is classified as Custom with its documented
semantic identifier; every code outside the table is classified as Standard
with identifier equal to the input code; the shift code KEY_LEFTSHIFT is
returned Standard with its own code unchanged.  The key type is instantiated
at STANDARD, the value the sole caller always passes in. -/
theorem lookup_key_classification :
    (lookup_key KEY_Q NyxKeyType.standard
        = (NYX_KEYS_CUSTOM_KEY_HOME, NyxKeyType.custom) ∧
      lookup_key KEY_HOMEPAGE NyxKeyType.standard
        = (NYX_KEYS_CUSTOM_KEY_HOT, NyxKeyType.custom) ∧
      lookup_key KEY_W NyxKeyType.standard
        = (NYX_KEYS_CUSTOM_KEY_HOT, NyxKeyType.custom) ∧
      lookup_key KEY_BACK NyxKeyType.standard
        = (NYX_KEYS_CUSTOM_KEY_BACK, NyxKeyType.custom) ∧
      lookup_key KEY_E NyxKeyType.standard
        = (NYX_KEYS_CUSTOM_KEY_BACK, NyxKeyType.custom) ∧
      lookup_key KEY_HOME NyxKeyType.standard
        = (NYX_KEYS_CUSTOM_KEY_HOME, NyxKeyType.custom) ∧
      lookup_key KEY_VOLUMEUP NyxKeyType.standard
        = (NYX_KEYS_CUSTOM_KEY_VOL_UP, NyxKeyType.custom) ∧
      lookup_key KEY_VOLUMEDOWN NyxKeyType.standard
        = (NYX_KEYS_CUSTOM_KEY_VOL_DOWN, NyxKeyType.custom) ∧
      lookup_key KEY_END NyxKeyType.standard
        = (NYX_KEYS_CUSTOM_KEY_POWER_ON, NyxKeyType.custom) ∧
      lookup_key KEY_PLAY NyxKeyType.standard
        = (NYX_KEYS_CUSTOM_KEY_MEDIA_PLAY, NyxKeyType.custom) ∧
      lookup_key KEY_PAUSE NyxKeyType.standard
        = (NYX_KEYS_CUSTOM_KEY_MEDIA_PAUSE, NyxKeyType.custom) ∧
      lookup_key KEY_STOP NyxKeyType.standard
        = (NYX_KEYS_CUSTOM_KEY_MEDIA_STOP, NyxKeyType.custom) ∧
      lookup_key KEY_NEXT NyxKeyType.standard
        = (NYX_KEYS_CUSTOM_KEY_MEDIA_NEXT, NyxKeyType.custom) ∧
      lookup_key KEY_PREVIOUS NyxKeyType.standard
        = (NYX_KEYS_CUSTOM_KEY_MEDIA_PREVIOUS, NyxKeyType.custom) ∧
      lookup_key KEY_SEARCH NyxKeyType.standard
        = (NYX_KEYS_CUSTOM_KEY_SEARCH, NyxKeyType.custom) ∧
      lookup_key KEY_BRIGHTNESSDOWN NyxKeyType.standard
        = (NYX_KEYS_CUSTOM_KEY_BRIGHTNESS_DOWN, NyxKeyType.custom) ∧
      lookup_key KEY_BRIGHTNESSUP NyxKeyType.standard
        = (NYX_KEYS_CUSTOM_KEY_BRIGHTNESS_UP, NyxKeyType.custom) ∧
      lookup_key KEY_MUTE NyxKeyType.standard
        = (NYX_KEYS_CUSTOM_KEY_VOL_MUTE, NyxKeyType.custom) ∧
      lookup_key KEY_REWIND NyxKeyType.standard
        = (NYX_KEYS_CUSTOM_KEY_MEDIA_REWIND, NyxKeyType.custom) ∧
      lookup_key KEY_FASTFORWARD NyxKeyType.standard
        = (NYX_KEYS_CUSTOM_KEY_MEDIA_FASTFORWARD, NyxKeyType.custom)) ∧
    (∀ c : Nat, c ∉ customKeyCodes →
      lookup_key c NyxKeyType.standard = (c, NyxKeyType.standard)) ∧
    lookup_key KEY_LEFTSHIFT NyxKeyType.standard
      = (KEY_LEFTSHIFT, NyxKeyType.standard) := by
  refine ⟨by decide, ?_, by decide⟩
  intro c hc
  simp only [customKeyCodes, List.mem_cons, List.mem_singleton, not_or] at hc
  obtain ⟨h1, h2, h3, h4, h5, h6, h7, h8, h9, h10, h11, h12, h13, h14, h15,
    h16, h17, h18, h19, h20, -⟩ := hc
  by_cases hs : c = KEY_LEFTSHIFT
  · subst hs; decide
  · simp [lookup_key, h1, h2, h3, h4, h5, h6, h7, h8, h9, h10, h11, h12, h13,
      h14, h15, h16, h17, h18, h19, h20, hs]

/-- Witness for `lookup_key_classification`: code 30 (KEY_A) is outside the
custom table and maps to itself as Standard. -/
theorem lookup_key_classification_witness :
    lookup_key 30 NyxKeyType.standard = (30, NyxKeyType.standard) :=
  lookup_key_classification.2.1 30 (by decide)

/-! ### Raw event reader (`read_input_event`, keys.c lines 317-359)

The environment is modelled by the outcome of the single `poll` call
(`PollRes`: the return value and whether `revents` has `POLLIN` set) and by
the trace of results of the successive `read` calls issued by the retry
loop.  A `read` either returns a byte count (`SysRead.ok`, 0 for end of
file) or fails (`SysRead.err`, with the flag telling whether `errno` was
`EINTR`).  The C retry loop exits only on a positive byte count or a
non-EINTR failure; if the supplied finite trace is exhausted without either,
the loop is still running, which the model reports as `Option.none` —
a trace on which every extension also yields `Option.none` is a
non-terminating execution. -/

/-- Size in bytes of one `InputEvent_t` record (struct timeval of 16 bytes
plus two uint16 fields plus one int32 field, on the 64-bit qemux86-64
target). -/
def sizeof_InputEvent : Nat := 24

/-- Outcome of one `read` system call. -/
inductive SysRead where
  | ok (bytes : Nat)
  | err (eintr : Bool)
deriving DecidableEq

/-- Outcome of the `poll` call: its return value and whether
`fds[0].revents & POLLIN` is set. -/
structure PollRes where
  ret : Int
  pollin : Bool
deriving DecidableEq

/-- The `for (;;)` read-retry loop of `read_input_event` (keys.c lines
341-355), driven by the trace of `read` results.  Returns the function's
result (`numEvents` on a positive read, `-1` on a non-EINTR failure), or
`Option.none` when the trace ends with the loop still running. -/
def readLoop : List SysRead → Option Int
  | [] => Option.none
  | SysRead.ok b :: rs =>
    if 0 < b then some ((b / sizeof_InputEvent : Nat) : Int) else readLoop rs
  | SysRead.err e :: rs => if e then readLoop rs else some (-1)

/-- Model of `read_input_event` (keys.c lines 317-359): `-1` on a NULL buffer, `0`
when `poll` reports not ready (return value `≤ 0`) or readiness without
`POLLIN`, otherwise the result of the read-retry loop. -/
def read_input_event (pEventsIsNull : Bool) (p : PollRes) (reads : List SysRead) :
    Option Int :=
  if pEventsIsNull then some (-1)
  else if p.ret ≤ 0 then some 0
  else if p.pollin then readLoop reads
  else some 0

/-- C5: `read_input_event` returns 0 immediately when the zero-timeout poll
reports the source not ready; a read interrupted by EINTR is retried
silently (the outcome is exactly that of the remaining reads); any other
negative read result yields the read-failure result `-1`, hence no events
for the cycle; and a short read of `b > 0` bytes yields a partial batch of
`b / sizeof(InputEvent_t)` events. -/
theorem read_input_event_cases :
    (∀ (p : PollRes) (reads : List SysRead), p.ret ≤ 0 →
      read_input_event false p reads = some 0) ∧
    (∀ (p : PollRes) (rs : List SysRead), 0 < p.ret → p.pollin = true →
      read_input_event false p (SysRead.err true :: rs)
        = read_input_event false p rs) ∧
    (∀ (p : PollRes) (rs : List SysRead), 0 < p.ret → p.pollin = true →
      read_input_event false p (SysRead.err false :: rs) = some (-1)) ∧
    (∀ (p : PollRes) (rs : List SysRead) (b : Nat), 0 < p.ret → p.pollin = true →
      0 < b →
      read_input_event false p (SysRead.ok b :: rs)
        = some ((b / sizeof_InputEvent : Nat) : Int)) := by
  refine ⟨?_, ?_, ?_, ?_⟩
  · intro p reads hp
    simp [read_input_event, hp]
  · intro p rs hp hin
    simp [read_input_event, readLoop, not_le.mpr hp, hin]
  · intro p rs hp hin
    simp [read_input_event, readLoop, not_le.mpr hp, hin]
  · intro p rs b hp hin hb
    simp [read_input_event, readLoop, not_le.mpr hp, hin, hb]

/-- Witness for `read_input_event_cases`, instantiated at concrete poll
results and read traces (a not-ready poll; one EINTR retry before a 48-byte
read; an immediate non-EINTR failure; a short 48-byte read giving 2
events). -/
theorem read_input_event_cases_witness :
    read_input_event false ⟨0, false⟩ [] = some 0 ∧
    read_input_event false ⟨1, true⟩ [SysRead.err true, SysRead.ok 48]
      = read_input_event false ⟨1, true⟩ [SysRead.ok 48] ∧
    read_input_event false ⟨1, true⟩ [SysRead.err false] = some (-1) ∧
    read_input_event false ⟨1, true⟩ [SysRead.ok 48] = some 2 := by
  refine ⟨read_input_event_cases.1 ⟨0, false⟩ [] (by decide),
    read_input_event_cases.2.1 ⟨1, true⟩ [SysRead.ok 48] (by decide) (by decide),
    read_input_event_cases.2.2.1 ⟨1, true⟩ [] (by decide) (by decide),
    ?_⟩
  have h := read_input_event_cases.2.2.2 ⟨1, true⟩ [] 48 (by decide) (by decide)
    (by decide)
  simpa [sizeof_InputEvent] using h

/-- C4 (code bug): when the source is ready but `read` keeps returning 0
bytes (end of file — e.g. the device disappeared), the retry loop of
`read_input_event` never exits: for every finite number of zero-byte reads
the function is still inside the loop, so the "get next event" operation is
not bounded by one read and can block (spin) indefinitely, contrary to the
loop's own comment that it only retries on EINTR. -/
theorem read_input_event_zero_read_loops :
    ∀ n : Nat,
      read_input_event false ⟨1, true⟩ (List.replicate n (SysRead.ok 0))
        = Option.none := by
  intro n
  have hloop : ∀ m : Nat, readLoop (List.replicate m (SysRead.ok 0)) = Option.none := by
    intro m
    induction m with
    | zero => rfl
    | succ k ih => simpa [List.replicate_succ, readLoop] using ih
  simp [read_input_event, hloop n]

/-! ### Event iterator (`keys_get_event`, keys.c lines 363-431)

`InputEvent_t` is modelled by its `type`, `code` and `value` fields; the
`struct timeval` timestamp is never read by keys.c and is omitted.
`nyx_event_keys_t` (from the external nyx-lib headers) is modelled by the
four fields keys.c assigns: `key_type`, `key`, `key_is_press`,
`key_is_auto_repeat`; the embedded `nyx_event_t` parent (whose `type` tag
`keys_event_create` sets to the constant `NYX_EVENT_KEYS`) is omitted.

The function's state is the static variables `raw_events` (as the list of
its meaningful entries), `event_count` and `event_iter`, together with the
device's `current_event_ptr` slot.  `event_count` is an `Int` because
`read_input_event` can return `-1`; `event_iter` is a `Nat` because it is
only ever 0 or an incremented index.  The per-call environment (`CallEnv`)
supplies what `read_input_event` would deliver — its return value and the
batch it stored — and whether `calloc` succeeds.  A call either returns
`NYX_ERROR_NONE` having yielded an optional event through `*e`
(`CallResult.ok`), or dies on the `assert` at keys.c line 387
(`CallResult.assertFailed`). -/

/-- A raw input record as read from the device (`InputEvent_t`, keys.c lines
66-72, minus the unused timestamp). -/
structure InputEvent where
  type : Nat
  code : Nat
  value : Int
deriving DecidableEq

/-- The fields of `nyx_event_keys_t` that keys.c assigns. -/
structure NyxKeysEvent where
  key_type : NyxKeyType
  key : Nat
  key_is_press : Bool
  key_is_auto_repeat : Bool
deriving DecidableEq

/-- Result of `keys_event_create` (keys.c lines 75-88) on the success path: a zeroed
event (`calloc`), i.e. key type UNDEFINED (= 0), key 0, both flags false. -/
def keys_event_create : NyxKeysEvent :=
  { key_type := NyxKeyType.undefined, key := 0,
    key_is_press := false, key_is_auto_repeat := false }

/-- The mutable state of `keys_get_event`: the static batch buffer (valid
prefix), the static `event_count` and `event_iter`, and the device's
`current_event_ptr`. -/
structure KeysState where
  raw_events : List InputEvent
  event_count : Int
  event_iter : Nat
  current_event_ptr : Option NyxKeysEvent
deriving DecidableEq

/-- Initial state: zeroed statics and a freshly `calloc`ed device, whose
`current_event_ptr` is NULL. -/
def initState : KeysState :=
  { raw_events := [], event_count := 0, event_iter := 0,
    current_event_ptr := Option.none }

/-- Per-call environment: what `read_input_event` would return and store
into `raw_events` if invoked, and whether `calloc` succeeds if invoked. -/
structure CallEnv where
  readResult : Int
  batch : List InputEvent
  allocOk : Bool
deriving DecidableEq

/-- Outcome of one `keys_get_event` call: return of `NYX_ERROR_NONE` with
the event written through `*e` (if any), or death on the failed `assert`
after an allocation failure (keys.c line 387). -/
inductive CallResult where
  | ok (yielded : Option NyxKeysEvent)
  | assertFailed
deriving DecidableEq

/-- The body of the translation loop (keys.c lines 396-411) applied to one
key record: key type STANDARD overwritten through the out-pointer of
`lookup_key`, `key_is_press = (value != 0)`, `key_is_auto_repeat =
(value > 1)`. -/
def translate (ie : InputEvent) : NyxKeysEvent :=
  { key_type := (lookup_key ie.code NyxKeyType.standard).2,
    key := (lookup_key ie.code NyxKeyType.standard).1,
    key_is_press := decide (ie.value ≠ 0),
    key_is_auto_repeat := decide (1 < ie.value) }

/-- Whether a raw record is a key event (keys.c line 396). -/
def isKeyRec (ie : InputEvent) : Bool := ie.type = EV_KEY

/-- The `for (; event_iter < event_count;)` loop of `keys_get_event`
(keys.c lines 390-423), unrolled on the number of remaining iterations
(each iteration increments `event_iter`, so the loop runs at most
`event_count - event_iter` times).  Returns the event written through `*e`
(if a key record was found), the final `event_iter`, and the final
`current_event_ptr` (`none` after a yield, the untouched allocation
otherwise). -/
def scanGo (raw : List InputEvent) (cur : NyxKeysEvent) :
    Nat → Nat → Option NyxKeysEvent × Nat × Option NyxKeysEvent
  | iter, 0 => (Option.none, iter, some cur)
  | iter, remaining + 1 =>
    let ie := raw.getD iter ⟨0, 0, 0⟩
    if isKeyRec ie then
      (some { cur with
          key_type := (lookup_key ie.code NyxKeyType.standard).2,
          key := (lookup_key ie.code NyxKeyType.standard).1,
          key_is_press := decide (ie.value ≠ 0),
          key_is_auto_repeat := decide (1 < ie.value) },
       iter + 1, Option.none)
    else
      scanGo raw cur (iter + 1) remaining

/-- The translation loop with its C bound: it runs while
`event_iter < event_count`. -/
def scanLoop (raw : List InputEvent) (count : Int) (cur : NyxKeysEvent)
    (iter : Nat) : Option NyxKeysEvent × Nat × Option NyxKeysEvent :=
  scanGo raw cur iter (count - (iter : Int)).toNat

/-- The batch-refill step of `keys_get_event` (keys.c lines 375-379): when
`event_iter` is 0, call `read_input_event` (which stores a new batch only
when it reads something) and clear `current_event_ptr`. -/
def refillStep (env : CallEnv) (st : KeysState) : KeysState :=
  if st.event_iter = 0 then
    { st with
        event_count := env.readResult,
        raw_events := if 0 < env.readResult then env.batch else st.raw_events,
        current_event_ptr := Option.none }
  else st

/-- The scan-and-return tail of `keys_get_event` (keys.c lines 390-430):
run the translation loop, reset `event_iter` to 0 when it has reached
`event_count`, and return `NYX_ERROR_NONE` with the yielded event (if
any). -/
def scanStep (st : KeysState) (cur : NyxKeysEvent) : CallResult × KeysState :=
  let r := scanLoop st.raw_events st.event_count cur st.event_iter
  let iter2 := if st.event_count ≤ (r.2.1 : Int) then 0 else r.2.1
  (CallResult.ok r.1,
   { st with event_iter := iter2, current_event_ptr := r.2.2 })

/-- One call of `keys_get_event` (keys.c lines 363-431): refill when the
cursor is at 0, allocate a fresh event if the slot is empty (dying on the
`assert` when `calloc` fails), then scan. -/
def keys_get_event (env : CallEnv) (st0 : KeysState) : CallResult × KeysState :=
  let st1 := refillStep env st0
  match st1.current_event_ptr with
  | some cur => scanStep st1 cur
  | Option.none =>
    if env.allocOk then scanStep st1 keys_event_create
    else (CallResult.assertFailed, st1)

/-- nyx error codes returned by this module. -/
inductive NyxError where
  | NYX_ERROR_NONE
  | NYX_ERROR_INVALID_HANDLE
deriving DecidableEq

/-- Model of `keys_release_event` (keys.c lines 90-106): invalid-handle on a NULL
device or event pointer, otherwise free the event and return
`NYX_ERROR_NONE`. -/
def keys_release_event (dIsNull : Bool) (eIsNull : Bool) : NyxError :=
  if dIsNull then NyxError.NYX_ERROR_INVALID_HANDLE
  else if eIsNull then NyxError.NYX_ERROR_INVALID_HANDLE
  else NyxError.NYX_ERROR_NONE

/-- Value of the caller's `*e` after a call that started with `*e = eIn`:
keys.c writes `*e` only at line 413, when a key record yields an event; on
every other path `*e` is left untouched. -/
def eAfter (env : CallEnv) (st : KeysState) (eIn : Option NyxKeysEvent) :
    Option NyxKeysEvent :=
  match (keys_get_event env st).1 with
  | CallResult.ok (some ev) => some ev
  | _ => eIn

/-- C3: a key record of value `v` produces an event with
`is_press = (v != 0)` and `is_auto_repeat = (v > 1)`; in particular `v = 0`
gives press=false repeat=false, `v = 1` gives press=true repeat=false,
`v > 1` gives press=true repeat=true, and auto-repeat implies press. -/
theorem key_flags_from_value :
    ∀ (code : Nat) (v : Int),
      (keys_get_event ⟨1, [⟨EV_KEY, code, v⟩], true⟩ initState).1
        = CallResult.ok (some (translate ⟨EV_KEY, code, v⟩)) ∧
      (translate ⟨EV_KEY, code, v⟩).key_is_press = decide (v ≠ 0) ∧
      (translate ⟨EV_KEY, code, v⟩).key_is_auto_repeat = decide (1 < v) ∧
      (v = 0 → (translate ⟨EV_KEY, code, v⟩).key_is_press = false ∧
        (translate ⟨EV_KEY, code, v⟩).key_is_auto_repeat = false) ∧
      (v = 1 → (translate ⟨EV_KEY, code, v⟩).key_is_press = true ∧
        (translate ⟨EV_KEY, code, v⟩).key_is_auto_repeat = false) ∧
      (1 < v → (translate ⟨EV_KEY, code, v⟩).key_is_press = true ∧
        (translate ⟨EV_KEY, code, v⟩).key_is_auto_repeat = true) ∧
      ((translate ⟨EV_KEY, code, v⟩).key_is_auto_repeat = true →
        (translate ⟨EV_KEY, code, v⟩).key_is_press = true) := by
  intro code v
  refine ⟨rfl, rfl, rfl, ?_, ?_, ?_, ?_⟩
  · rintro rfl; exact ⟨rfl, rfl⟩
  · rintro rfl; exact ⟨rfl, rfl⟩
  · intro h
    constructor
    · simp only [translate]; exact decide_eq_true (by omega)
    · simp only [translate]; exact decide_eq_true h
  · intro h
    simp only [translate, decide_eq_true_eq] at h ⊢
    omega

/-- Witness for `key_flags_from_value` at code 30 and value 2 (an
auto-repeat record). -/
theorem key_flags_from_value_witness :
    (keys_get_event ⟨1, [⟨EV_KEY, 30, 2⟩], true⟩ initState).1
      = CallResult.ok (some (translate ⟨EV_KEY, 30, 2⟩)) ∧
    (translate ⟨EV_KEY, 30, 2⟩).key_is_press = true ∧
    (translate ⟨EV_KEY, 30, 2⟩).key_is_auto_repeat = true :=
  ⟨(key_flags_from_value 30 2).1,
   ((key_flags_from_value 30 2).2.2.2.2.2.1 (by decide)).1,
   ((key_flags_from_value 30 2).2.2.2.2.2.1 (by decide)).2⟩

/-- C10: a key record with a negative value — a shape outside the spec's
enumerated cases — yields press=true (the code tests `value != 0`) and
repeat=false (the code tests `value > 1`). -/
theorem negative_value_flags :
    ∀ (code : Nat) (v : Int), v < 0 →
      (keys_get_event ⟨1, [⟨EV_KEY, code, v⟩], true⟩ initState).1
        = CallResult.ok (some (translate ⟨EV_KEY, code, v⟩)) ∧
      (translate ⟨EV_KEY, code, v⟩).key_is_press = true ∧
      (translate ⟨EV_KEY, code, v⟩).key_is_auto_repeat = false := by
  intro code v hv
  refine ⟨rfl, ?_, ?_⟩
  · simp only [translate]; exact decide_eq_true (by omega)
  · simp only [translate]; exact decide_eq_false (by omega)

/-- Witness for `negative_value_flags` at code 30 and value -1. -/
theorem negative_value_flags_witness :
    (keys_get_event ⟨1, [⟨EV_KEY, 30, -1⟩], true⟩ initState).1
      = CallResult.ok (some (translate ⟨EV_KEY, 30, -1⟩)) ∧
    (translate ⟨EV_KEY, 30, -1⟩).key_is_press = true ∧
    (translate ⟨EV_KEY, 30, -1⟩).key_is_auto_repeat = false :=
  negative_value_flags 30 (-1) (by decide)

/-- C8 as stated is false: on the very first call with a key record
available, an allocation failure does not produce an error return — the
call dies on the failed `assert` (keys.c line 387) instead of returning an
error code to the caller. -/
theorem alloc_failure_counterexample :
    (keys_get_event ⟨1, [⟨EV_KEY, 30, 1⟩], false⟩ initState).1
      = CallResult.assertFailed := by
  decide

/-- C8 amended: whenever the allocation is attempted (the slot is empty
after the refill step) and `calloc` fails, `keys_get_event` aborts on the
assertion rather than returning any error result. -/
theorem alloc_failure_asserts :
    ∀ (env : CallEnv) (st : KeysState), env.allocOk = false →
      (refillStep env st).current_event_ptr = Option.none →
      (keys_get_event env st).1 = CallResult.assertFailed := by
  intro env st ha hslot
  simp [keys_get_event, hslot, ha]

/-- Witness for `alloc_failure_asserts` at a concrete environment with a
failing allocator and the initial state. -/
theorem alloc_failure_asserts_witness :
    (keys_get_event ⟨1, [⟨EV_KEY, 30, 1⟩], false⟩ initState).1
      = CallResult.assertFailed :=
  alloc_failure_asserts ⟨1, [⟨EV_KEY, 30, 1⟩], false⟩ initState rfl (by decide)

/-- C9: as long as allocation succeeds, every `keys_get_event` call returns
`NYX_ERROR_NONE` — also when the underlying read failed (readResult = -1)
or the batch is empty — and a call that yields no event leaves the caller's
`*e` untouched. -/
theorem keys_get_event_error_is_none :
    ∀ (env : CallEnv) (st : KeysState) (eIn : Option NyxKeysEvent),
      env.allocOk = true →
      (∃ y, (keys_get_event env st).1 = CallResult.ok y) ∧
      ((keys_get_event env st).1 = CallResult.ok Option.none →
        eAfter env st eIn = eIn) := by
  intro env st eIn ha
  constructor
  · cases hslot : (refillStep env st).current_event_ptr with
    | none =>
      refine ⟨(scanLoop (refillStep env st).raw_events
          (refillStep env st).event_count keys_event_create
          (refillStep env st).event_iter).1, ?_⟩
      simp [keys_get_event, hslot, ha, scanStep]
    | some cur =>
      refine ⟨(scanLoop (refillStep env st).raw_events
          (refillStep env st).event_count cur
          (refillStep env st).event_iter).1, ?_⟩
      simp [keys_get_event, hslot, scanStep]
  · intro hok
    simp [eAfter, hok]

/-- Witness for `keys_get_event_error_is_none`: a call from the initial
state after a failed read (readResult = -1) returns `NYX_ERROR_NONE` and
does not write `*e`. -/
theorem keys_get_event_error_is_none_witness :
    (∃ y, (keys_get_event ⟨-1, [], true⟩ initState).1 = CallResult.ok y) ∧
    ((keys_get_event ⟨-1, [], true⟩ initState).1 = CallResult.ok Option.none →
      eAfter ⟨-1, [], true⟩ initState Option.none = Option.none) :=
  keys_get_event_error_is_none ⟨-1, [], true⟩ initState Option.none rfl

/-! ### Characterisation of the translation loop

`scanGo_spec` describes one run of the loop over the suffix of the batch
that starts at the cursor: either the suffix contains no key record (the
loop exhausts the batch, yields nothing and leaves the allocated event in
the slot), or it yields the translation of the first key record of the
suffix and stops right after it. -/

lemma scanGo_spec (raw : List InputEvent) (cur : NyxKeysEvent) :
    ∀ (remaining iter : Nat), iter + remaining = raw.length →
      ((raw.drop iter).filter isKeyRec = [] ∧
        scanGo raw cur iter remaining = (Option.none, raw.length, some cur)) ∨
      (∃ k j, ((raw.drop iter).filter isKeyRec).head? = some k ∧
        scanGo raw cur iter remaining = (some (translate k), j, Option.none) ∧
        iter < j ∧ j ≤ raw.length ∧
        (raw.drop j).filter isKeyRec
          = ((raw.drop iter).filter isKeyRec).tail) := by
  intro remaining
  induction remaining with
  | zero =>
    intro iter h
    left
    have hi : iter = raw.length := by omega
    subst hi
    exact ⟨by simp, rfl⟩
  | succ rem ih =>
    intro iter h
    have hlt : iter < raw.length := by omega
    have hdrop : raw.drop iter = raw[iter] :: raw.drop (iter + 1) :=
      List.drop_eq_getElem_cons hlt
    have hget? : raw[iter]? = some raw[iter] := List.getElem?_eq_getElem hlt
    by_cases hk : isKeyRec raw[iter] = true
    · right
      refine ⟨raw[iter], iter + 1, ?_, ?_, by omega, by omega, ?_⟩
      · rw [hdrop, List.filter_cons, if_pos hk]
        rfl
      · simp [scanGo, hget?, hk, translate]
      · rw [hdrop, List.filter_cons, if_pos hk]
        rfl
    · have hstep : scanGo raw cur iter (rem + 1) = scanGo raw cur (iter + 1) rem := by
        simp [scanGo, hget?, hk]
      have hfilter : (raw.drop iter).filter isKeyRec
          = (raw.drop (iter + 1)).filter isKeyRec := by
        rw [hdrop, List.filter_cons, if_neg hk]
      rcases ih (iter + 1) (by omega) with ⟨hf, hgo⟩ | ⟨k, j, hhead, hgo, hij, hjle, htail⟩
      · exact Or.inl ⟨by rw [hfilter]; exact hf, by rw [hstep]; exact hgo⟩
      · exact Or.inr ⟨k, j, by rw [hfilter]; exact hhead, by rw [hstep]; exact hgo,
          by omega, hjle, by rw [hfilter]; exact htail⟩

/-- The function `scanStep` characterised through `scanGo_spec`, for a state whose
`event_count` matches the batch length and whose cursor is inside the
batch. -/
lemma scanStep_of_filter (st : KeysState) (cur : NyxKeysEvent)
    (hc : st.event_count = (st.raw_events.length : Int))
    (hle : st.event_iter ≤ st.raw_events.length) :
    ((st.raw_events.drop st.event_iter).filter isKeyRec = [] ∧
      scanStep st cur = (CallResult.ok Option.none,
        { st with event_iter := 0, current_event_ptr := some cur })) ∨
    (∃ k j, ((st.raw_events.drop st.event_iter).filter isKeyRec).head? = some k ∧
      scanStep st cur = (CallResult.ok (some (translate k)),
        { st with
            event_iter := if st.raw_events.length ≤ j then 0 else j,
            current_event_ptr := Option.none }) ∧
      st.event_iter < j ∧ j ≤ st.raw_events.length ∧
      (st.raw_events.drop j).filter isKeyRec
        = ((st.raw_events.drop st.event_iter).filter isKeyRec).tail) := by
  have htn : (st.event_count - (st.event_iter : Int)).toNat
      = st.raw_events.length - st.event_iter := by
    rw [hc]; omega
  have hsum : st.event_iter + (st.raw_events.length - st.event_iter)
      = st.raw_events.length := by omega
  rcases scanGo_spec st.raw_events cur (st.raw_events.length - st.event_iter)
      st.event_iter hsum with ⟨hf, hgo⟩ | ⟨k, j, hhead, hgo, hij, hjle, htail⟩
  · left
    refine ⟨hf, ?_⟩
    simp only [scanStep, scanLoop, htn, hgo]
    have : st.event_count ≤ ((st.raw_events.length : Nat) : Int) := le_of_eq hc
    simp [this]
  · right
    refine ⟨k, j, hhead, ?_, hij, hjle, htail⟩
    simp only [scanStep, scanLoop, htn, hgo]
    by_cases hj : st.raw_events.length ≤ j
    · have : st.event_count ≤ (j : Int) := by rw [hc]; exact_mod_cast hj
      simp [this, hj]
    · have : ¬ st.event_count ≤ (j : Int) := by rw [hc]; exact_mod_cast hj
      simp [this, hj]

/-! ### Multi-call runs

A `Driver` couples the iterator state with the stream of batches the
device will deliver on successive refills.  `stepCall` performs one
`keys_get_event` call: when the cursor is at 0 the call refills, consuming
the next batch of the stream (an empty stream delivers a 0-count read);
otherwise the refill is skipped and the environment is irrelevant.
Allocation always succeeds in these runs. -/

structure Driver where
  st : KeysState
  stream : List (List InputEvent)
deriving DecidableEq

/-- The environment `read_input_event` would provide for the next call. -/
def callEnvOf (dr : Driver) : CallEnv :=
  if dr.st.event_iter = 0 then
    match dr.stream with
    | [] => ⟨0, [], true⟩
    | b :: _ => ⟨(b.length : Int), b, true⟩
  else ⟨0, [], true⟩

/-- The part of the stream still undelivered after the next call. -/
def streamAfter (dr : Driver) : List (List InputEvent) :=
  if dr.st.event_iter = 0 then dr.stream.tail else dr.stream

/-- One `keys_get_event` call against the stream of batches. -/
def stepCall (dr : Driver) : Option NyxKeysEvent × Driver :=
  match keys_get_event (callEnvOf dr) dr.st with
  | (CallResult.ok y, st') => (y, ⟨st', streamAfter dr⟩)
  | (CallResult.assertFailed, st') => (Option.none, ⟨st', streamAfter dr⟩)

/-- Runs `n` successive `keys_get_event` calls, collecting the yielded events in
order. -/
def runN : Nat → Driver → List NyxKeysEvent × Driver
  | 0, dr => ([], dr)
  | n + 1, dr =>
    ((stepCall dr).1.toList ++ (runN n (stepCall dr).2).1,
     (runN n (stepCall dr).2).2)

/-- The key records of a raw record list. -/
def keysOf (l : List InputEvent) : List InputEvent := l.filter isKeyRec

/-- The translated events a driver still owes the caller: the key records
after the cursor in the current batch (none when the cursor rests at 0 —
the batch is consumed then), followed by the key records of the
undelivered stream. -/
def pendingD (dr : Driver) : List NyxKeysEvent :=
  (if dr.st.event_iter = 0 then []
   else (keysOf (dr.st.raw_events.drop dr.st.event_iter)).map translate)
  ++ (keysOf dr.stream.flatten).map translate

/-- Termination measure for driver runs. -/
def measureD (dr : Driver) : Nat :=
  (if dr.st.event_iter = 0 then 0
   else dr.st.raw_events.length - dr.st.event_iter)
  + dr.stream.flatten.length + dr.stream.length

/-- Invariant of reachable driver states: a cursor away from 0 sits
strictly inside the current batch, whose length `event_count` records, and
the slot is empty (the previous call handed its event out). -/
def DriverInv (dr : Driver) : Prop :=
  dr.st.event_iter ≠ 0 →
    dr.st.current_event_ptr = Option.none ∧
    dr.st.event_count = (dr.st.raw_events.length : Int) ∧
    dr.st.event_iter < dr.st.raw_events.length

/-- The filter `keysOf` distributes over append. -/
lemma keysOf_append (l1 l2 : List InputEvent) :
    keysOf (l1 ++ l2) = keysOf l1 ++ keysOf l2 :=
  List.filter_append l1 l2

/-- One call preserves the invariant, peels its yield off the pending
list, and decreases the measure while events are pending. -/
lemma stepCall_spec (dr : Driver) (hInv : DriverInv dr) :
    DriverInv (stepCall dr).2 ∧
    (stepCall dr).1.toList ++ pendingD (stepCall dr).2 = pendingD dr ∧
    (pendingD dr ≠ [] → measureD (stepCall dr).2 < measureD dr) := by
  obtain ⟨⟨raw, count, iter, slot⟩, stream⟩ := dr
  by_cases hit : iter = 0
  · subst hit
    cases stream with
    | nil =>
      have hstep : stepCall ⟨⟨raw, count, 0, slot⟩, []⟩
          = (Option.none, ⟨⟨raw, 0, 0, some keys_event_create⟩, []⟩) := by
        simp [stepCall, callEnvOf, streamAfter, keys_get_event, refillStep,
          scanStep, scanLoop, scanGo]
      rw [hstep]
      refine ⟨by intro h; simp at h, ?_, ?_⟩
      · simp [pendingD, keysOf]
      · intro hp
        exact absurd (by simp [pendingD, keysOf]) hp
    | cons b bs =>
      by_cases hb : b = []
      · subst hb
        have hstep : stepCall ⟨⟨raw, count, 0, slot⟩, [] :: bs⟩
            = (Option.none, ⟨⟨raw, 0, 0, some keys_event_create⟩, bs⟩) := by
          simp [stepCall, callEnvOf, streamAfter, keys_get_event, refillStep,
            scanStep, scanLoop, scanGo]
        rw [hstep]
        refine ⟨by intro h; simp at h, ?_, ?_⟩
        · simp [pendingD]
        · intro hp
          simp [measureD]
      · have hbl : 0 < (b.length : Int) := by
          exact_mod_cast List.length_pos.mpr hb
        have hkge : keys_get_event (callEnvOf ⟨⟨raw, count, 0, slot⟩, b :: bs⟩)
            ⟨raw, count, 0, slot⟩
            = scanStep ⟨b, (b.length : Int), 0, Option.none⟩ keys_event_create := by
          simp [callEnvOf, keys_get_event, refillStep, hbl]
        rcases scanStep_of_filter ⟨b, (b.length : Int), 0, Option.none⟩
            keys_event_create rfl (by simp) with
          ⟨hf, hscan⟩ | ⟨k, j, hhead, hscan, hij, hjle, htail⟩
        · dsimp only at hscan hf
          have hstep : stepCall ⟨⟨raw, count, 0, slot⟩, b :: bs⟩
              = (Option.none, ⟨⟨b, (b.length : Int), 0, some keys_event_create⟩, bs⟩) := by
            simp only [stepCall, hkge, hscan, streamAfter]
            rfl
          rw [hstep]
          simp only [List.drop_zero] at hf
          refine ⟨by intro h; simp at h, ?_, ?_⟩
          · simp only [pendingD, List.flatten_cons, keysOf_append]
            simp [keysOf, hf]
          · intro hp
            have hbne : b.length ≠ 0 := fun h => hb (List.length_eq_zero.mp h)
            simp only [measureD, List.flatten_cons, List.length_append,
              List.length_cons]
            simp
            omega
        · dsimp only at hscan hij hjle
          simp only [List.drop_zero] at hhead htail
          have hj0 : j ≠ 0 := by omega
          have hstep : stepCall ⟨⟨raw, count, 0, slot⟩, b :: bs⟩
              = (some (translate k),
                 ⟨⟨b, (b.length : Int), if b.length ≤ j then 0 else j,
                   Option.none⟩, bs⟩) := by
            simp only [stepCall, hkge, hscan, streamAfter]
            rfl
          rw [hstep]
          have hcons : keysOf b = k :: (keysOf b).tail :=
            (List.cons_head?_tail hhead).symm
          have hmap : (keysOf b).map translate
              = translate k :: ((keysOf b).tail).map translate := by
            conv_lhs => rw [hcons]
            simp
          refine ⟨?_, ?_, ?_⟩
          · by_cases hj : b.length ≤ j
            · intro h
              dsimp only at h
              rw [if_pos hj] at h
              exact absurd rfl h
            · intro h
              refine ⟨rfl, rfl, ?_⟩
              dsimp only
              rw [if_neg hj]
              omega
          · by_cases hj : b.length ≤ j
            · have hjeq : j = b.length := by omega
              have htnil : (keysOf b).tail = [] := by
                simp only [keysOf]
                rw [← htail, hjeq]
                simp
              simp only [pendingD, Option.toList_some]
              simp [hj, List.flatten_cons, keysOf_append, hmap, htnil]
            · have htail' : keysOf (b.drop j) = (keysOf b).tail := htail
              have e1 : pendingD ⟨⟨b, (b.length : Int),
                  if b.length ≤ j then 0 else j, Option.none⟩, bs⟩
                  = ((keysOf b).tail).map translate
                    ++ (keysOf bs.flatten).map translate := by
                simp only [pendingD, if_neg hj, if_neg hj0, htail']
              have e2 : pendingD ⟨⟨raw, count, 0, slot⟩, b :: bs⟩
                  = (keysOf b).map translate
                    ++ (keysOf bs.flatten).map translate := by
                show ([] : List NyxKeysEvent)
                    ++ (keysOf (b :: bs).flatten).map translate = _
                rw [List.nil_append, List.flatten_cons, keysOf_append,
                  List.map_append]
              rw [e1, e2, hmap]
              simp
          · intro hp
            simp only [measureD]
            by_cases hj : b.length ≤ j
            · simp [hj, List.flatten_cons]
              omega
            · simp [hj, hj0, List.flatten_cons]
              omega
  · obtain ⟨hslot, hc, hlt⟩ := hInv hit
    dsimp only at hslot hc hlt
    have hkge : keys_get_event (callEnvOf ⟨⟨raw, count, iter, slot⟩, stream⟩)
        ⟨raw, count, iter, slot⟩
        = scanStep ⟨raw, count, iter, slot⟩ keys_event_create := by
      subst hslot
      simp [callEnvOf, keys_get_event, refillStep, hit]
    rcases scanStep_of_filter ⟨raw, count, iter, slot⟩ keys_event_create hc
        (le_of_lt hlt) with
      ⟨hf, hscan⟩ | ⟨k, j, hhead, hscan, hij, hjle, htail⟩
    · dsimp only at hscan hf
      have hstep : stepCall ⟨⟨raw, count, iter, slot⟩, stream⟩
          = (Option.none, ⟨⟨raw, count, 0, some keys_event_create⟩, stream⟩) := by
        simp only [stepCall, hkge, hscan, streamAfter]
        rw [if_neg hit]
      rw [hstep]
      refine ⟨by intro h; simp at h, ?_, ?_⟩
      · simp [pendingD, hit, keysOf, hf]
      · intro hp
        simp [measureD, hit]
        omega
    · dsimp only at hscan hij hjle
      have hj0 : j ≠ 0 := by omega
      have hstep : stepCall ⟨⟨raw, count, iter, slot⟩, stream⟩
          = (some (translate k),
             ⟨⟨raw, count, if raw.length ≤ j then 0 else j, Option.none⟩,
              stream⟩) := by
        simp only [stepCall, hkge, hscan, streamAfter]
        rw [if_neg hit]
      rw [hstep]
      have hcons : keysOf (raw.drop iter) = k :: (keysOf (raw.drop iter)).tail :=
        (List.cons_head?_tail hhead).symm
      have hmap : (keysOf (raw.drop iter)).map translate
          = translate k :: ((keysOf (raw.drop iter)).tail).map translate := by
        conv_lhs => rw [hcons]
        simp
      refine ⟨?_, ?_, ?_⟩
      · by_cases hj : raw.length ≤ j
        · intro h
          dsimp only at h
          rw [if_pos hj] at h
          exact absurd rfl h
        · intro h
          refine ⟨rfl, hc, ?_⟩
          dsimp only
          rw [if_neg hj]
          omega
      · by_cases hj : raw.length ≤ j
        · have hjeq : j = raw.length := by omega
          have htnil : (keysOf (raw.drop iter)).tail = [] := by
            simp only [keysOf]
            rw [← htail, hjeq]
            simp
          simp only [pendingD, Option.toList_some]
          simp [hj, hit, hmap, htnil]
        · have htail' : keysOf (raw.drop j) = (keysOf (raw.drop iter)).tail := htail
          have e1 : pendingD ⟨⟨raw, count,
              if raw.length ≤ j then 0 else j, Option.none⟩, stream⟩
              = ((keysOf (raw.drop iter)).tail).map translate
                ++ (keysOf stream.flatten).map translate := by
            simp only [pendingD, if_neg hj, if_neg hj0, htail']
          have e2 : pendingD ⟨⟨raw, count, iter, slot⟩, stream⟩
              = (keysOf (raw.drop iter)).map translate
                ++ (keysOf stream.flatten).map translate := by
            simp only [pendingD, if_neg hit]
          rw [e1, e2, hmap]
          simp
      · intro hp
        simp only [measureD]
        by_cases hj : raw.length ≤ j
        · simp [hj, hit]
          omega
        · simp [hj, hj0, hit]
          omega

/-- A driver with measure 0 owes no events. -/
lemma pendingD_eq_nil_of_measure (dr : Driver) (hInv : DriverInv dr)
    (hm : measureD dr = 0) : pendingD dr = [] := by
  obtain ⟨⟨raw, count, iter, slot⟩, stream⟩ := dr
  simp only [measureD] at hm
  simp only [pendingD]
  by_cases hit : iter = 0
  · have hfl : stream.flatten.length = 0 := by
      rw [if_pos hit] at hm
      omega
    have : stream.flatten = [] := List.length_eq_zero.mp hfl
    simp [hit, this, keysOf]
  · obtain ⟨-, -, hlt⟩ := hInv hit
    dsimp only at hlt
    rw [if_neg hit] at hm
    omega

/-- Running `n` calls returns a prefix of the pending events, the rest
staying pending; `measureD dr` calls flush everything. -/
lemma runN_spec : ∀ (n : Nat) (dr : Driver), DriverInv dr →
    (runN n dr).1 ++ pendingD (runN n dr).2 = pendingD dr ∧
    DriverInv (runN n dr).2 ∧
    (measureD dr ≤ n → pendingD (runN n dr).2 = []) := by
  intro n
  induction n with
  | zero =>
    intro dr hInv
    refine ⟨by simp [runN], hInv, ?_⟩
    intro hm
    exact pendingD_eq_nil_of_measure dr hInv (by omega)
  | succ m ih =>
    intro dr hInv
    obtain ⟨hInv', heq, hdec⟩ := stepCall_spec dr hInv
    obtain ⟨ih1, ih2, ih3⟩ := ih (stepCall dr).2 hInv'
    have hrun1 : (runN (m + 1) dr).1
        = (stepCall dr).1.toList ++ (runN m (stepCall dr).2).1 := rfl
    have hrun2 : (runN (m + 1) dr).2 = (runN m (stepCall dr).2).2 := rfl
    refine ⟨?_, by rw [hrun2]; exact ih2, ?_⟩
    · rw [hrun1, hrun2, List.append_assoc, ih1, heq]
    · intro hm
      rw [hrun2]
      by_cases hp : pendingD dr = []
      · have h0 : (stepCall dr).1.toList ++ pendingD (stepCall dr).2 = [] := by
          rw [heq, hp]
        have hp' : pendingD (stepCall dr).2 = [] :=
          (List.append_eq_nil.mp h0).2
        have : (runN m (stepCall dr).2).1 ++ pendingD (runN m (stepCall dr).2).2
            = [] := by rw [ih1, hp']
        exact (List.append_eq_nil.mp this).2
      · exact ih3 (by have := hdec hp; omega)

/-- C6: for every stream of batches, running enough `keys_get_event` calls
returns exactly the translations of the key records of all batches,
concatenated in the order the records appeared — within each batch and
across successive batches, with no reordering or coalescing. -/
theorem events_fifo_order :
    ∀ batches : List (List InputEvent),
      (runN (batches.flatten.length + batches.length)
          ⟨initState, batches⟩).1
        = (keysOf batches.flatten).map translate := by
  intro batches
  have hInv : DriverInv ⟨initState, batches⟩ := by
    intro h
    simp [initState] at h
  obtain ⟨heq, -, hemp⟩ :=
    runN_spec (batches.flatten.length + batches.length) ⟨initState, batches⟩ hInv
  rw [hemp (by simp [measureD, initState]), List.append_nil] at heq
  rw [heq]
  simp [pendingD, initState]

/-- C7: within one `keys_get_event` call, raw records whose type is not
`EV_KEY` are silently skipped — a batch of junk records followed by a key
record yields that key record's translation in a single call, and a batch
of only non-key records yields no event, in both cases with the
`NYX_ERROR_NONE` result (never a fault). -/
theorem nonkey_records_skipped :
    (∀ (junk : List InputEvent) (k : InputEvent),
      (∀ ie ∈ junk, isKeyRec ie = false) → isKeyRec k = true →
      (keys_get_event ⟨((junk ++ [k]).length : Int), junk ++ [k], true⟩
          initState).1
        = CallResult.ok (some (translate k))) ∧
    (∀ junk : List InputEvent, (∀ ie ∈ junk, isKeyRec ie = false) →
      (keys_get_event ⟨(junk.length : Int), junk, true⟩ initState).1
        = CallResult.ok Option.none) := by
  constructor
  · intro junk k hjunk hk
    have hlen : 0 < ((junk ++ [k]).length : Int) := by
      simp
    have hkge : keys_get_event
        ⟨((junk ++ [k]).length : Int), junk ++ [k], true⟩ initState
        = scanStep ⟨junk ++ [k], ((junk ++ [k]).length : Int), 0, Option.none⟩
            keys_event_create := by
      simp [keys_get_event, refillStep, initState, hlen]
    have hfilter : (junk ++ [k]).filter isKeyRec = [k] := by
      rw [List.filter_append]
      have h1 : junk.filter isKeyRec = [] :=
        List.filter_eq_nil_iff.mpr (by intro a ha; simp [hjunk a ha])
      simp [h1, hk]
    rcases scanStep_of_filter
        ⟨junk ++ [k], ((junk ++ [k]).length : Int), 0, Option.none⟩
        keys_event_create rfl (by simp) with
      ⟨hf, -⟩ | ⟨k', j, hhead, hscan, -, -, -⟩
    · dsimp only at hf
      rw [List.drop_zero, hfilter] at hf
      exact absurd hf (by simp)
    · dsimp only at hhead hscan
      rw [List.drop_zero, hfilter] at hhead
      have hk' : k = k' := by simpa using hhead
      subst hk'
      rw [hkge, hscan]
  · intro junk hjunk
    have hfilter : junk.filter isKeyRec = [] :=
      List.filter_eq_nil_iff.mpr (by intro a ha; simp [hjunk a ha])
    by_cases hj : junk = []
    · subst hj
      decide
    · have hlen : 0 < (junk.length : Int) := by
        exact_mod_cast List.length_pos.mpr hj
      have hkge : keys_get_event ⟨(junk.length : Int), junk, true⟩ initState
          = scanStep ⟨junk, (junk.length : Int), 0, Option.none⟩
              keys_event_create := by
        simp [keys_get_event, refillStep, initState, hlen]
      rcases scanStep_of_filter ⟨junk, (junk.length : Int), 0, Option.none⟩
          keys_event_create rfl (by simp) with
        ⟨-, hscan⟩ | ⟨k', j, hhead, -, -, -, -⟩
      · dsimp only at hscan
        rw [hkge, hscan]
      · dsimp only at hhead
        rw [List.drop_zero, hfilter] at hhead
        exact absurd hhead (by simp)

/-- Witness for `nonkey_records_skipped`: a synchronization record
(type 0) before a key record for code 30; and a batch of one
synchronization record alone. -/
theorem nonkey_records_skipped_witness :
    (keys_get_event ⟨2, [⟨0, 0, 0⟩, ⟨EV_KEY, 30, 1⟩], true⟩ initState).1
      = CallResult.ok (some (translate ⟨EV_KEY, 30, 1⟩)) ∧
    (keys_get_event ⟨1, [⟨0, 0, 0⟩], true⟩ initState).1
      = CallResult.ok Option.none := by
  constructor
  · have h := nonkey_records_skipped.1 [⟨0, 0, 0⟩] ⟨EV_KEY, 30, 1⟩
      (by intro ie hie; simp at hie; subst hie; rfl) rfl
    simpa using h
  · have h := nonkey_records_skipped.2 [⟨0, 0, 0⟩]
      (by intro ie hie; simp at hie; subst hie; rfl)
    simpa using h

/-! ### Event ownership accounting

To examine the at-most-one-live-event discipline, the iterator is run with
a ghost ledger alongside: `live` counts events allocated by
`keys_event_create` and not yet freed by `keys_release_event`; `held`
lists the events that were handed to the caller and not yet released.  A
call allocates exactly when the `current_event_ptr` slot is empty after
the refill step (keys.c lines 381-388); `keys_release_event` frees
unconditionally, as in keys.c. -/

/-- Caller-visible operations on the device. -/
inductive Op where
  | getEvent (env : CallEnv)
  | releaseEvent
deriving DecidableEq

/-- The iterator state plus the ghost ledger of live and held events. -/
structure GhostState where
  ks : KeysState
  live : Nat
  held : List NyxKeysEvent
deriving DecidableEq

/-- One operation against the ledger.  A `getEvent` whose allocation was
attempted (empty slot after refill) and succeeded (the call returned) adds
one live event; a yielded event is appended to `held`.  A `releaseEvent`
releases the oldest held event, decrementing `live`.  A call that dies on
the assert leaves the ledger unchanged (the process is gone). -/
def ghostStep : Op → GhostState → GhostState
  | Op.getEvent env, g =>
    match keys_get_event env g.ks with
    | (CallResult.ok y, st') =>
      { ks := st',
        live := g.live +
          (if (refillStep env g.ks).current_event_ptr = Option.none
           then 1 else 0),
        held := g.held ++ y.toList }
    | (CallResult.assertFailed, _) => g
  | Op.releaseEvent, g =>
    match g.held with
    | [] => g
    | _ :: rest =>
      match keys_release_event false false with
      | NyxError.NYX_ERROR_NONE => { ks := g.ks, live := g.live - 1, held := rest }
      | NyxError.NYX_ERROR_INVALID_HANDLE => g

/-- A sequence of operations from a ghost state. -/
def runGhost : List Op → GhostState → GhostState
  | [], g => g
  | op :: ops, g => runGhost ops (ghostStep op g)

/-- The ghost state of a freshly opened device. -/
def ghostInit : GhostState := { ks := initState, live := 0, held := [] }

/-- C2 as stated is false: after one batch with two key records, two
`keys_get_event` calls with no intervening release leave two events live
and held by the caller at once — `keys_get_event` clears
`current_event_ptr` when it hands an event out (keys.c line 414), so the
second call allocates a fresh event although the first is still
outstanding; nothing fails and no slot is reused. -/
theorem two_live_events_counterexample :
    (runGhost
        [Op.getEvent ⟨2, [⟨EV_KEY, KEY_VOLUMEUP, 1⟩, ⟨EV_KEY, KEY_VOLUMEUP, 0⟩], true⟩,
         Op.getEvent ⟨2, [⟨EV_KEY, KEY_VOLUMEUP, 1⟩, ⟨EV_KEY, KEY_VOLUMEUP, 0⟩], true⟩]
        ghostInit).live = 2 ∧
    (runGhost
        [Op.getEvent ⟨2, [⟨EV_KEY, KEY_VOLUMEUP, 1⟩, ⟨EV_KEY, KEY_VOLUMEUP, 0⟩], true⟩,
         Op.getEvent ⟨2, [⟨EV_KEY, KEY_VOLUMEUP, 1⟩, ⟨EV_KEY, KEY_VOLUMEUP, 0⟩], true⟩]
        ghostInit).held.length = 2 := by
  decide

/-- C2 amended: the device's single `current_event_ptr` slot means each
`keys_get_event` call allocates at most one new translated event (and a
release never increases the count), but events already handed to the
caller are untracked, so the number of live events across calls is not
bounded by one. -/
theorem per_call_allocation_bound :
    ∀ (env : CallEnv) (g : GhostState),
      (ghostStep (Op.getEvent env) g).live ≤ g.live + 1 ∧
      (ghostStep Op.releaseEvent g).live ≤ g.live := by
  intro env g
  constructor
  · show (match keys_get_event env g.ks with
      | (CallResult.ok y, st') =>
        ({ ks := st',
           live := g.live +
             (if (refillStep env g.ks).current_event_ptr = Option.none
              then 1 else 0),
           held := g.held ++ y.toList } : GhostState)
      | (CallResult.assertFailed, _) => g).live ≤ g.live + 1
    cases h : keys_get_event env g.ks with
    | mk r st' =>
      cases r with
      | ok y =>
        by_cases hs : (refillStep env g.ks).current_event_ptr = Option.none
        · simp [hs]
        · simp [hs]
      | assertFailed =>
        simp
  · show (match g.held with
      | [] => g
      | _ :: rest =>
        match keys_release_event false false with
        | NyxError.NYX_ERROR_NONE =>
          ({ ks := g.ks, live := g.live - 1, held := rest } : GhostState)
        | NyxError.NYX_ERROR_INVALID_HANDLE => g).live ≤ g.live
    cases hh : g.held with
    | nil => exact le_refl _
    | cons e rest =>
      simp [keys_release_event]

end NyxKeys
